import Mathlib

/-!
Shallow embedding of the two extraction pipelines of `stock.py`
(`get_dividend` and `get_ipo`).  The HTTP fetch is taken at the boundary:
a pipeline receives the response (status code plus body), where the body of
the dividend response is the raw document text and the body of the IPO
response is the parsed soup structure (list of `<table>` elements, each with
its `<th>` texts and its `<tbody>` rows of `<td>` texts, as returned by
`get_text(strip=True)`).

Python failure behaviour is made explicit in the outcome types:
`fetchFailure s` models the non-200 branch (the code prints the status and
returns `None`), `noMatch` models the dividend regex-miss branch (the code
prints "No match found." and returns `None`), and `raised msg` models an
uncaught Python exception (pandas `ValueError`, `json` decode error, or the
`AttributeError` hit when no `<table>` exists).
-/

/-- A pandas cell: `some s` is a string value, `none` is `NaN`/`None`/`NaT`. -/
abbrev Cell := Option String

/-- A calendar date (year, month, day). -/
structure Date where
  y : Nat
  m : Nat
  d : Nat
deriving DecidableEq, Repr

/-- Whether `pat` occurs at the head of `s`. -/
def headMatches : List Char → List Char → Bool
  | [], _ => true
  | _ :: _, [] => false
  | p :: ps, c :: cs => p = c && headMatches ps cs

/-- Index of the first occurrence of `pat` in `s`, if any. -/
def findSub : List Char → List Char → Option Nat
  | [], pat => if pat = [] then some 0 else none
  | c :: cs, pat =>
    if headMatches pat (c :: cs) then some 0
    else (findSub cs pat).map (· + 1)

/-- Whether `pat` occurs anywhere in `s`. -/
def strContainsB (s pat : String) : Bool :=
  (findSub s.data pat.data).isSome

/-- Fuelled worker for `strReplaceAll`: scans left to right, replacing each
non-overlapping occurrence of `pat` by `rep` and continuing after it,
exactly as Python `str.replace` does. -/
def replaceAux (rep pat : List Char) : Nat → List Char → List Char
  | 0, s => s
  | _ + 1, [] => []
  | n + 1, c :: cs =>
    if headMatches pat (c :: cs) then rep ++ replaceAux rep pat n ((c :: cs).drop pat.length)
    else c :: replaceAux rep pat n cs

/-- Python `s.replace(pat, rep)` (for nonempty `pat`): left-to-right
replacement of non-overlapping occurrences. -/
def strReplaceAll (s pat rep : String) : String :=
  if pat.data = [] then s
  else ⟨replaceAux rep.data pat.data s.data.length s.data⟩

/-- Split a character list at every occurrence of `sep` (like
`str.split(sep)` on single-character separators). -/
def splitOnChar (sep : Char) (cs : List Char) : List (List Char) :=
  cs.foldr
    (fun c acc =>
      match acc with
      | g :: gs => if c = sep then [] :: g :: gs else (c :: g) :: gs
      | [] => [[c]])
    [[]]

/-- Numeric value of a nonempty all-digit character list. -/
def digitsVal? (cs : List Char) : Option Nat :=
  if cs = [] then none
  else
    cs.foldl
      (fun acc c =>
        match acc with
        | none => none
        | some v => if c.isDigit then some (v * 10 + (c.toNat - 48)) else none)
      (some 0)

/-- Month number of a three-letter English month abbreviation
(case-insensitive, as `%b` in `strptime`). -/
def monthNum (cs : List Char) : Option Nat :=
  let l := cs.map Char.toLower
  if l = "jan".data then some 1
  else if l = "feb".data then some 2
  else if l = "mar".data then some 3
  else if l = "apr".data then some 4
  else if l = "may".data then some 5
  else if l = "jun".data then some 6
  else if l = "jul".data then some 7
  else if l = "aug".data then some 8
  else if l = "sep".data then some 9
  else if l = "oct".data then some 10
  else if l = "nov".data then some 11
  else if l = "dec".data then some 12
  else none

def isLeap (y : Nat) : Bool :=
  y % 4 = 0 && (y % 100 ≠ 0 || y % 400 = 0)

def daysInMonth (y m : Nat) : Nat :=
  if m = 2 then (if isLeap y then 29 else 28)
  else if m = 4 ∨ m = 6 ∨ m = 9 ∨ m = 11 then 30
  else 31

/-- Model of `pd.to_datetime(s, format=f)` for the two formats the source uses,
`%d-%b-%Y` (`sep = '-'`) and `%d %b %Y` (`sep = ' '`): a 1-2 digit day, an
abbreviated month name and a 4-digit year, the whole string consumed, the
day validated against the calendar, and the year within the representable
`pandas.Timestamp` range (approximated as 1678..2261).  `none` models the
raised `ValueError`/`OutOfBoundsDatetime`. -/
def parseStrictDate (sep : Char) (s : String) : Option Date :=
  match splitOnChar sep s.data with
  | [ds, ms, ys] =>
    match digitsVal? ds, monthNum ms, digitsVal? ys with
    | some d, some m, some y =>
      if ds.length ≤ 2 ∧ ys.length = 4 ∧ 1 ≤ d ∧ d ≤ daysInMonth y m ∧
          1678 ≤ y ∧ y ≤ 2261 then
        some ⟨y, m, d⟩
      else none
    | _, _, _ => none
  | _ => none

/-! ## JSON decoding (`json.loads`)

The dividend payload is a JSON array of arrays of strings (section 6 of the
upstream schema: nine string fields per row), so `json.loads` is modelled on
that JSON subset: arrays, strings (with the basic escapes), and whitespace.
`none` models the uncaught `json.JSONDecodeError`. -/

inductive JTok where
  | lb
  | rb
  | comma
  | jstr (s : String)
deriving DecidableEq, Repr

/-- Scan a JSON string body after the opening quote, returning the decoded
string and the remaining characters after the closing quote. -/
def scanStr : List Char → List Char → Option (String × List Char)
  | [], _ => none
  | c :: cs, acc =>
    if c = '"' then some (⟨acc.reverse⟩, cs)
    else if c = '\\' then
      match cs with
      | [] => none
      | d :: ds =>
        if d = '"' ∨ d = '\\' ∨ d = '/' then scanStr ds (d :: acc) else none
    else scanStr cs (c :: acc)

/-- Fuelled JSON tokenizer. -/
def jtokA : Nat → List Char → Option (List JTok)
  | 0, _ => none
  | _ + 1, [] => some []
  | n + 1, c :: cs =>
    if c = ' ' ∨ c = '\n' ∨ c = '\t' ∨ c = '\r' then jtokA n cs
    else if c = '[' then (jtokA n cs).map (.lb :: ·)
    else if c = ']' then (jtokA n cs).map (.rb :: ·)
    else if c = ',' then (jtokA n cs).map (.comma :: ·)
    else if c = '"' then
      match scanStr cs [] with
      | none => none
      | some (s, rest) => (jtokA n rest).map (.jstr s :: ·)
    else none

/-- Parse the tail of a string row after its first element: either `]` now,
or `, "s"` repeatedly. -/
def pRowTail : Nat → List JTok → List String → Option (List String × List JTok)
  | 0, _, _ => none
  | _ + 1, .rb :: ts, acc => some (acc.reverse, ts)
  | n + 1, .comma :: .jstr s :: ts, acc => pRowTail n ts (s :: acc)
  | _, _, _ => none

/-- Parse one row `["s", ...]` of the payload. -/
def pRow (fuel : Nat) : List JTok → Option (List String × List JTok)
  | .lb :: .rb :: ts => some ([], ts)
  | .lb :: .jstr s :: ts => pRowTail fuel ts [s]
  | _ => none

/-- Parse the tail of the top-level array after its first row: either `]`
(at end of input), or `, row` repeatedly. -/
def pTopTail : Nat → List JTok → List (List String) → Option (List (List String))
  | 0, _, _ => none
  | _ + 1, .rb :: ts, acc => if ts = [] then some acc.reverse else none
  | n + 1, .comma :: ts, acc =>
    match pRow n ts with
    | some (r, ts') => pTopTail n ts' (r :: acc)
    | none => none
  | _, _, _ => none

/-- Model of `json.loads`, specialised to an array of arrays of strings (the shape of
the dividend payload).  The whole input must be consumed. -/
def jsonLoads (s : String) : Option (List (List String)) :=
  match jtokA (s.data.length + 1) s.data with
  | none => none
  | some toks =>
    match toks with
    | [.lb, .rb] => some []
    | .lb :: ts =>
      match pRow (toks.length + 1) ts with
      | some (r, ts') => pTopTail (toks.length + 1) ts' [r]
      | none => none
    | _ => none

/-! ## Locator for the dividend payload

`re.search(r'var dtdata = (\[.*?\])\];', content, re.DOTALL)`, followed by
`match.group(1) + ']'`.  The pattern opens with a literal, so a match starts
at an occurrence of `var dtdata = [`; with `re.DOTALL` the non-greedy group
then extends to the first following `]];`, the group being the text up to
and including the first of those three characters.  If the first literal
occurrence has no following `]];` then no later one has either, so the
whole search fails. -/
def divLocate (content : String) : Option String :=
  let cs := content.data
  match findSub cs "var dtdata = [".data with
  | none => none
  | some i =>
    let rest := cs.drop (i + 13)
    match findSub rest "]];".data with
    | none => none
    | some j => some ⟨rest.take (j + 1) ++ [']']⟩

/-! ## pandas DataFrame construction

`pd.DataFrame(rows, columns=cols)` on a list of lists: ragged rows are
padded with missing values up to the widest row, and a `ValueError` is
raised iff that width differs from `len(cols)` (for nonempty data). -/

/-- Widest row of the payload (`lib.to_object_array`). -/
def maxWidth (rows : List (List String)) : Nat :=
  rows.foldr (fun r acc => max r.length acc) 0

/-- Pad a row with `NaN` cells up to width `w`. -/
def padRow (w : Nat) (r : List String) : List Cell :=
  r.map some ++ List.replicate (w - r.length) none

/-- Model of `pd.DataFrame(rows, columns)` with `ncols` column names: `none` models
the raised `ValueError` on a column-count mismatch. -/
def mkDataFrame (rows : List (List String)) (ncols : Nat) :
    Option (List (List Cell)) :=
  match rows with
  | [] => some []
  | _ :: _ =>
    if maxWidth rows = ncols then some (rows.map (padRow ncols)) else none

/-- The map `listMapM f l` succeeds iff `f` succeeds on every element: models a
whole-column pandas operation that raises on any bad element. -/
def listMapM {α β : Type} (f : α → Option β) : List α → Option (List β)
  | [] => some []
  | a :: l =>
    match f a, listMapM f l with
    | some b, some bs => some (b :: bs)
    | _, _ => none

/-- Model of `df.index = range(1, len(df) + 1)`: 1-based row labels. -/
def indexed {α : Type} (l : List α) : List (Nat × α) :=
  ((List.range l.length).map (· + 1)).zip l

/-! ## Dividend pipeline (`get_dividend`) -/

/-- The fixed path removed from the stock-code column. -/
def entPath : String := "/web/stock/entitlement/"

/-- The fixed base prepended to the URL column. -/
def urlBase : String := "https://klse.i3investor.com/"

/-- One normalized dividend record (row of the returned DataFrame, after
dropping the `Blank` column).  `none` fields are pandas missing values. -/
structure DivRecord where
  annDate : Option Date
  stockName : Cell
  opening : Cell
  current : Cell
  dividend : Cell
  exDate : Option Date
  stockCode : Cell
  url : Cell
deriving DecidableEq, Repr

/-- Outcome of one `get_dividend` invocation. -/
inductive DivOutcome where
  /-- Non-200 response: the code prints the status code and returns `None`. -/
  | fetchFailure (status : Nat)
  /-- The regex found no payload: the code prints "No match found." and
  returns `None` (the spec's `ExtractError("payload not found")`). -/
  | noMatch
  /-- An uncaught Python exception aborted the call. -/
  | raised (msg : String)
  /-- The returned DataFrame, rows labelled with their 1-based index. -/
  | table (rows : List (Nat × DivRecord))
deriving DecidableEq, Repr

def colMsg : String := "ValueError: mismatched columns"
def dtMsg : String := "ValueError: to_datetime"
def jsonMsg : String := "JSONDecodeError"
def attrMsg : String := "AttributeError: NoneType"

/-- Model of `pd.to_datetime(col, format=...)` at one cell: missing stays `NaT`, a
string must parse strictly or the whole call raises (outer `none`). -/
def cellStrict (sep : Char) : Cell → Option (Option Date)
  | none => some none
  | some s => (parseStrictDate sep s).map some

/-- Normalize one padded 9-cell dividend row: drop the `Blank` column,
strip `entPath` from the stock code, prepend `urlBase` to the URL (missing
cells stay missing, as pandas masks `NaN` in `.str` and `+` operations),
and parse the two date columns under `%d-%b-%Y`. -/
def divFinishRow : List Cell → Option DivRecord
  | [a, b, c, d, e, f, g, _blank, u] => do
    let ann ← cellStrict '-' a
    let ex ← cellStrict '-' f
    some
      { annDate := ann, stockName := b, opening := c, current := d,
        dividend := e, exDate := ex,
        stockCode := g.map (fun s => strReplaceAll s entPath ""),
        url := u.map (fun s => urlBase ++ s) }
  | _ => none

/-- Stages of `get_dividend` after `json.loads`: DataFrame construction
over the 9-name column list, column rewrites, 1-based index, strict date
parsing. -/
def divNormalize (rows : List (List String)) : DivOutcome :=
  match mkDataFrame rows 9 with
  | none => .raised colMsg
  | some grid =>
    match listMapM divFinishRow grid with
    | none => .raised dtMsg
    | some recs => .table (indexed recs)

/-- An HTTP response, fetched at the boundary. -/
structure HttpResponse where
  status : Nat
  text : String

/-- Function `get_dividend` of `stock.py`, with the single `requests.get` taken at
the boundary. -/
def get_dividend (resp : HttpResponse) : DivOutcome :=
  if resp.status = 200 then
    match divLocate resp.text with
    | some payload =>
      match jsonLoads payload with
      | some rows => divNormalize rows
      | none => .raised jsonMsg
    | none => .noMatch
  else .fetchFailure resp.status

/-! ## IPO pipeline (`get_ipo`) -/

/-- One normalized IPO record (row of the returned DataFrame). -/
structure IpoRecord where
  name : Cell
  appOpened : Option Date
  appClosed : Option Date
  issuePrice : Cell
  publicIssue : Cell
  offerSale : Cell
  privatePlacement : Cell
  issueHouse : Cell
  listSought : Cell
  listingDate : Option Date
deriving DecidableEq, Repr

/-- Outcome of one `get_ipo` invocation. -/
inductive IpoOutcome where
  /-- Non-200 response: the code prints the status code and returns `None`. -/
  | fetchFailure (status : Nat)
  /-- An uncaught Python exception aborted the call. -/
  | raised (msg : String)
  /-- The returned DataFrame, rows labelled with their 1-based index. -/
  | table (rows : List (Nat × IpoRecord))
deriving DecidableEq, Repr

/-- Model of `Series.replace('-', np.nan)` at one cell: the exact value `"-"`
becomes missing. -/
def dashToNone (c : Cell) : Cell :=
  if c = some "-" then none else c

/-- Model of `pd.to_datetime(col, errors='coerce')` at one cell: missing stays
`NaT`, and any text that does not parse (under the `%d %b %Y` shape this
source publishes) is coerced to `NaT` instead of raising. -/
def cellLenient : Cell → Option Date
  | none => none
  | some s => parseStrictDate ' ' s

/-- Normalize one padded 10-cell IPO row: strict `%d %b %Y` parses for
`Application Opened` and `Date of Listing`, and the deliberately lenient
dash-to-missing-then-coerce treatment of `Application Closed`. -/
def ipoFinishRow : List Cell → Option IpoRecord
  | [n, ao, ac, ip, pi, os, pp, ih, ls, dl] => do
    let o ← cellStrict ' ' ao
    let l ← cellStrict ' ' dl
    some
      { name := n, appOpened := o, appClosed := cellLenient (dashToNone ac),
        issuePrice := ip, publicIssue := pi, offerSale := os,
        privatePlacement := pp, issueHouse := ih, listSought := ls,
        listingDate := l }
  | _ => none

/-- Stages of `get_ipo` after the `<td>` texts of the body rows have been
collected and newline-cleaned: DataFrame construction over the 10-name
column list, 1-based index, date handling. -/
def ipoNormalize (rows : List (List String)) : IpoOutcome :=
  match mkDataFrame rows 10 with
  | none => .raised colMsg
  | some grid =>
    match listMapM ipoFinishRow grid with
    | none => .raised dtMsg
    | some recs => .table (indexed recs)

/-- One `<table>` element of the parsed document: the `get_text(strip=True)`
texts of its `<th>` descendants, and, when a `<tbody>` exists, the
`get_text(strip=True)` texts of the `<td>` cells of each of its `<tr>`
rows. -/
structure TableEl where
  ths : List String
  tbody : Option (List (List String))
deriving DecidableEq, Repr

/-- The parsed IPO document: its `<table>` elements in document order
(`soup.find('table')` takes the first). -/
structure IpoDoc where
  tables : List TableEl
deriving DecidableEq, Repr

/-- An IPO response, fetched and soup-parsed at the boundary. -/
structure IpoResponse where
  status : Nat
  doc : IpoDoc

/-- Model of `.replace('\n', ' ')` applied to every extracted cell text. -/
def nlClean (s : String) : String := strReplaceAll s "\n" " "

/-- Function `get_ipo` of `stock.py`, with the single `requests.get` and the
BeautifulSoup parse taken at the boundary.  When the document has no
`<table>`, `soup.find('table')` is `None` and `table.find_all('th')`
raises `AttributeError`; likewise for a missing `<tbody>`.  The header
texts are collected but never used afterwards. -/
def get_ipo (resp : IpoResponse) : IpoOutcome :=
  if resp.status = 200 then
    match resp.doc.tables.head? with
    | none => .raised attrMsg
    | some t =>
      let _hdrs := t.ths.map nlClean
      match t.tbody with
      | none => .raised attrMsg
      | some trs => ipoNormalize (trs.map (fun tr => tr.map nlClean))
  else .fetchFailure resp.status

/-! ## Concrete inputs and auxiliary predicates used by the theorems -/

/-- The document body of the spec's concrete dividend scenario. -/
def c1Body : String :=
  "var dtdata = [[\"02-Jan-2024\",\"ABC Bhd\",\"1.20\",\"1.25\",\"0.05\",\"15-Jan-2024\",\"1234\",\"\",\"/web/stock/entitlement/1234\"]];"

/-- A well-formed dividend row: nine fields whose two date fields parse
under the strict `%d-%b-%Y` format. -/
def divRowOk (r : List String) : Bool :=
  r.length == 9 && (parseStrictDate '-' (r.getD 0 "")).isSome &&
    (parseStrictDate '-' (r.getD 5 "")).isSome

/-- An IPO body row whose strict columns are well-formed: ten cells with
`Application Opened` and `Date of Listing` parsing under `%d %b %Y`. -/
def ipoRowOk (r : List String) : Bool :=
  r.length == 10 && (parseStrictDate ' ' (r.getD 1 "")).isSome &&
    (parseStrictDate ' ' (r.getD 9 "")).isSome

/-- A well-formed nine-field dividend row whose raw stock-code field
re-creates the path after one deletion pass of `str.replace`. -/
def advRow : List String :=
  ["02-Jan-2024", "ABC Bhd", "1.20", "1.25", "0.05", "15-Jan-2024",
   "/web/stock/entitle/web/stock/entitlement/ment/", "", "/web/stock/entitlement/1234"]

/-- A dividend payload mixing a well-formed 9-field row with a 7-field row. -/
def mixedPayload : List (List String) :=
  [["02-Jan-2024", "A", "1.00", "1.10", "0.05", "15-Jan-2024", "1111", "", "/u"],
   ["03-Jan-2024", "B", "2.00", "2.10", "0.06", "16-Jan-2024", "2222"]]

/-- An IPO body-row payload mixing a 10-cell row with an 8-cell row. -/
def ipoMixedRows : List (List String) :=
  [["Co1", "02 Jan 2024", "-", "0.50", "10m", "5m", "2m", "HouseA", "Main", "15 Jan 2024"],
   ["Co2", "03 Jan 2024", "10 Jan 2024", "0.60", "11m", "6m", "3m", "HouseB"]]

/-- The table `ipoNormalize` returns on `ipoMixedRows`: the 8-cell row is
silently padded, leaving `listSought` and `listingDate` missing. -/
def ipoMixedExpected : List (Nat × IpoRecord) :=
  [(1, { name := some "Co1", appOpened := some ⟨2024, 1, 2⟩, appClosed := none,
         issuePrice := some "0.50", publicIssue := some "10m",
         offerSale := some "5m", privatePlacement := some "2m",
         issueHouse := some "HouseA", listSought := some "Main",
         listingDate := some ⟨2024, 1, 15⟩ }),
   (2, { name := some "Co2", appOpened := some ⟨2024, 1, 3⟩,
         appClosed := some ⟨2024, 1, 10⟩, issuePrice := some "0.60",
         publicIssue := some "11m", offerSale := some "6m",
         privatePlacement := some "3m", issueHouse := some "HouseB",
         listSought := none, listingDate := none })]

/-- Two lists of `<table>` elements that agree except possibly in the text
content of their `<th>` header cells. -/
def sameShape : List TableEl → List TableEl → Bool
  | [], [] => true
  | t1 :: r1, t2 :: r2 => t1.tbody == t2.tbody && sameShape r1 r2
  | _, _ => false

/-- A one-table IPO document with descriptive header texts. -/
def thDoc1 : IpoDoc :=
  ⟨[{ ths := ["Name of Company", "Application Opened", "Date of Listing"],
      tbody := some [["Co1", "02 Jan 2024", "-", "0.50", "10m", "5m", "2m",
                      "HouseA", "Main", "15 Jan 2024"]] }]⟩

/-- The same document with every header text changed. -/
def thDoc2 : IpoDoc :=
  ⟨[{ ths := ["h1", "h2", "h3", "h4"],
      tbody := some [["Co1", "02 Jan 2024", "-", "0.50", "10m", "5m", "2m",
                      "HouseA", "Main", "15 Jan 2024"]] }]⟩

/-! ## Helper lemmas -/

theorem maxWidth_of_uniform (n : Nat) :
    ∀ rows : List (List String), rows ≠ [] → (∀ r ∈ rows, r.length = n) →
      maxWidth rows = n := by
  intro rows
  induction rows with
  | nil => intro h _; exact absurd rfl h
  | cons r rs ih =>
    intro _ hw
    have hr : r.length = n := hw r (List.mem_cons_self _ _)
    rcases rs with _ | ⟨r2, rs'⟩
    · show max r.length (maxWidth []) = n
      simp [maxWidth, hr]
    · have h2 : maxWidth (r2 :: rs') = n :=
        ih (by simp) (fun x hx => hw x (List.mem_cons_of_mem _ hx))
      show max r.length (maxWidth (r2 :: rs')) = n
      rw [hr, h2]; exact Nat.max_self n

theorem length_le_maxWidth {r : List String} :
    ∀ {rows : List (List String)}, r ∈ rows → r.length ≤ maxWidth rows := by
  intro rows
  induction rows with
  | nil => intro h; cases h
  | cons a rs ih =>
    intro h
    rcases List.mem_cons.mp h with rfl | h
    · show r.length ≤ max r.length (maxWidth rs)
      exact Nat.le_max_left _ _
    · show r.length ≤ max a.length (maxWidth rs)
      exact le_trans (ih h) (Nat.le_max_right _ _)

theorem maxWidth_lt (k : Nat) :
    ∀ rows : List (List String), rows ≠ [] → (∀ r ∈ rows, r.length < k) →
      maxWidth rows < k := by
  intro rows
  induction rows with
  | nil => intro h _; exact absurd rfl h
  | cons r rs ih =>
    intro _ hw
    have hr := hw r (List.mem_cons_self _ _)
    show max r.length (maxWidth rs) < k
    rcases rs with _ | ⟨r2, rs'⟩
    · simpa [maxWidth] using hr
    · exact Nat.max_lt.mpr
        ⟨hr, ih (by simp) (fun x hx => hw x (List.mem_cons_of_mem _ hx))⟩

theorem mkDataFrame_uniform (n : Nat) (rows : List (List String)) (hne : rows ≠ [])
    (hw : ∀ r ∈ rows, r.length = n) :
    mkDataFrame rows n = some (rows.map (padRow n)) := by
  rcases rows with _ | ⟨r, rs⟩
  · exact absurd rfl hne
  · show (if maxWidth (r :: rs) = n then some ((r :: rs).map (padRow n)) else none) = _
    rw [if_pos (maxWidth_of_uniform n _ (by simp) hw)]

theorem mkDataFrame_none (n : Nat) (rows : List (List String)) (hne : rows ≠ [])
    (h : maxWidth rows ≠ n) : mkDataFrame rows n = none := by
  rcases rows with _ | ⟨r, rs⟩
  · exact absurd rfl hne
  · show (if maxWidth (r :: rs) = n then some ((r :: rs).map (padRow n)) else none) = _
    rw [if_neg h]

theorem listMapM_none_of_mem {α β : Type} (f : α → Option β) {a : α} :
    ∀ {l : List α}, a ∈ l → f a = none → listMapM f l = none := by
  intro l
  induction l with
  | nil => intro h _; cases h
  | cons x t ih =>
    intro h ha
    rcases List.mem_cons.mp h with rfl | h
    · simp [listMapM, ha]
    · simp only [listMapM, ih h ha]
      rcases f x with _ | b <;> rfl

theorem indexed_length {α : Type} (l : List α) : (indexed l).length = l.length := by
  simp [indexed]

theorem indexed_fst {α : Type} (l : List α) :
    (indexed l).map Prod.fst = (List.range l.length).map (· + 1) := by
  apply List.map_fst_zip
  simp

theorem forall2_zipIdx {α β : Type} (P : α → β → Prop) {l : List α} {l' : List β}
    (h : List.Forall₂ P l l') :
    ∀ idx : List Nat, idx.length = l'.length →
      List.Forall₂ (fun a p => P a (Prod.snd p)) l (idx.zip l') := by
  induction h with
  | nil =>
    intro idx hl
    rcases idx with _ | ⟨i, idx'⟩
    · exact List.Forall₂.nil
    · simp at hl
  | cons hab htail ih =>
    intro idx hl
    rcases idx with _ | ⟨i, idx'⟩
    · simp at hl
    · exact List.Forall₂.cons hab (ih idx' (by simpa using hl))

theorem forall2_indexed {α β : Type} (P : α → β → Prop) {l : List α} {l' : List β}
    (h : List.Forall₂ P l l') :
    List.Forall₂ (fun a p => P a (Prod.snd p)) l (indexed l') :=
  forall2_zipIdx P h _ (by simp)

theorem divRowOk_spec (r : List String) (h : divRowOk r = true) :
    r.length = 9 ∧ (parseStrictDate '-' (r.getD 0 "")).isSome = true ∧
      (parseStrictDate '-' (r.getD 5 "")).isSome = true := by
  simp only [divRowOk, Bool.and_eq_true, beq_iff_eq] at h
  exact ⟨h.1.1, h.1.2, h.2⟩

theorem ipoRowOk_spec (r : List String) (h : ipoRowOk r = true) :
    r.length = 10 ∧ (parseStrictDate ' ' (r.getD 1 "")).isSome = true ∧
      (parseStrictDate ' ' (r.getD 9 "")).isSome = true := by
  simp only [ipoRowOk, Bool.and_eq_true, beq_iff_eq] at h
  exact ⟨h.1.1, h.1.2, h.2⟩

theorem len9_shape (r : List String) (h : r.length = 9) :
    ∃ a b c d e f g h8 u, r = [a, b, c, d, e, f, g, h8, u] :=
  match r, h with
  | [a, b, c, d, e, f, g, h8, u], _ => ⟨a, b, c, d, e, f, g, h8, u, rfl⟩
  | [], h => by simp only [List.length_nil] at h; omega
  | [_], h => by simp only [List.length_cons, List.length_nil] at h; omega
  | [_, _], h => by simp only [List.length_cons, List.length_nil] at h; omega
  | [_, _, _], h => by simp only [List.length_cons, List.length_nil] at h; omega
  | [_, _, _, _], h => by simp only [List.length_cons, List.length_nil] at h; omega
  | [_, _, _, _, _], h => by simp only [List.length_cons, List.length_nil] at h; omega
  | [_, _, _, _, _, _], h => by
      simp only [List.length_cons, List.length_nil] at h; omega
  | [_, _, _, _, _, _, _], h => by
      simp only [List.length_cons, List.length_nil] at h; omega
  | [_, _, _, _, _, _, _, _], h => by
      simp only [List.length_cons, List.length_nil] at h; omega
  | _ :: _ :: _ :: _ :: _ :: _ :: _ :: _ :: _ :: _ :: _, h => by
      simp only [List.length_cons] at h; omega

theorem len10_shape (r : List String) (h : r.length = 10) :
    ∃ a b c d e f g h8 i j, r = [a, b, c, d, e, f, g, h8, i, j] :=
  match r, h with
  | [a, b, c, d, e, f, g, h8, i, j], _ => ⟨a, b, c, d, e, f, g, h8, i, j, rfl⟩
  | [], h => by simp only [List.length_nil] at h; omega
  | [_], h => by simp only [List.length_cons, List.length_nil] at h; omega
  | [_, _], h => by simp only [List.length_cons, List.length_nil] at h; omega
  | [_, _, _], h => by simp only [List.length_cons, List.length_nil] at h; omega
  | [_, _, _, _], h => by simp only [List.length_cons, List.length_nil] at h; omega
  | [_, _, _, _, _], h => by simp only [List.length_cons, List.length_nil] at h; omega
  | [_, _, _, _, _, _], h => by
      simp only [List.length_cons, List.length_nil] at h; omega
  | [_, _, _, _, _, _, _], h => by
      simp only [List.length_cons, List.length_nil] at h; omega
  | [_, _, _, _, _, _, _, _], h => by
      simp only [List.length_cons, List.length_nil] at h; omega
  | [_, _, _, _, _, _, _, _, _], h => by
      simp only [List.length_cons, List.length_nil] at h; omega
  | _ :: _ :: _ :: _ :: _ :: _ :: _ :: _ :: _ :: _ :: _ :: _, h => by
      simp only [List.length_cons] at h; omega

theorem divFinishRow_eq (a b c d e f g h8 u : String) (da de : Date)
    (ha : parseStrictDate '-' a = some da) (hf : parseStrictDate '-' f = some de) :
    divFinishRow (padRow 9 [a, b, c, d, e, f, g, h8, u]) =
      some { annDate := some da, stockName := some b, opening := some c,
             current := some d, dividend := some e, exDate := some de,
             stockCode := some (strReplaceAll g entPath ""),
             url := some (urlBase ++ u) } := by
  have hp : padRow 9 [a, b, c, d, e, f, g, h8, u] =
      [some a, some b, some c, some d, some e, some f, some g, some h8, some u] := rfl
  rw [hp]
  simp [divFinishRow, cellStrict, ha, hf]

theorem divFinishRow_bad (a b c d e f g h8 u : String)
    (h : parseStrictDate '-' a = none ∨ parseStrictDate '-' f = none) :
    divFinishRow (padRow 9 [a, b, c, d, e, f, g, h8, u]) = none := by
  have hp : padRow 9 [a, b, c, d, e, f, g, h8, u] =
      [some a, some b, some c, some d, some e, some f, some g, some h8, some u] := rfl
  rw [hp]
  rcases h with h | h
  · simp [divFinishRow, cellStrict, h]
  · cases hA : parseStrictDate '-' a <;> simp [divFinishRow, cellStrict, h, hA]

theorem ipoFinishRow_eq (n ao ac ip pi os pp ih ls dl : String) (dOpen dList : Date)
    (hao : parseStrictDate ' ' ao = some dOpen)
    (hdl : parseStrictDate ' ' dl = some dList) :
    ipoFinishRow (padRow 10 [n, ao, ac, ip, pi, os, pp, ih, ls, dl]) =
      some { name := some n, appOpened := some dOpen,
             appClosed := cellLenient (dashToNone (some ac)),
             issuePrice := some ip, publicIssue := some pi, offerSale := some os,
             privatePlacement := some pp, issueHouse := some ih,
             listSought := some ls, listingDate := some dList } := by
  have hp : padRow 10 [n, ao, ac, ip, pi, os, pp, ih, ls, dl] =
      [some n, some ao, some ac, some ip, some pi, some os, some pp, some ih,
       some ls, some dl] := rfl
  rw [hp]
  simp [ipoFinishRow, cellStrict, hao, hdl]

theorem ipoFinishRow_bad (n ao ac ip pi os pp ih ls dl : String)
    (h : parseStrictDate ' ' ao = none ∨ parseStrictDate ' ' dl = none) :
    ipoFinishRow (padRow 10 [n, ao, ac, ip, pi, os, pp, ih, ls, dl]) = none := by
  have hp : padRow 10 [n, ao, ac, ip, pi, os, pp, ih, ls, dl] =
      [some n, some ao, some ac, some ip, some pi, some os, some pp, some ih,
       some ls, some dl] := rfl
  rw [hp]
  rcases h with h | h
  · simp [ipoFinishRow, cellStrict, h]
  · cases hA : parseStrictDate ' ' ao <;> simp [ipoFinishRow, cellStrict, h, hA]

theorem divMapM_ok :
    ∀ rows : List (List String), (∀ r ∈ rows, divRowOk r = true) →
      ∃ recs, listMapM divFinishRow (rows.map (padRow 9)) = some recs ∧
        List.Forall₂ (fun r (rec : DivRecord) =>
          rec.stockCode = some (strReplaceAll (r.getD 6 "") entPath "") ∧
          rec.url = some (urlBase ++ r.getD 8 "")) rows recs := by
  intro rows
  induction rows with
  | nil => intro _; exact ⟨[], rfl, List.Forall₂.nil⟩
  | cons r t ih =>
    intro h
    obtain ⟨hlen, ha, hf⟩ := divRowOk_spec r (h r (List.mem_cons_self _ _))
    obtain ⟨a, b, c, d, e, f, g, h8, u, rfl⟩ := len9_shape r hlen
    obtain ⟨da, hda⟩ := Option.isSome_iff_exists.mp ha
    obtain ⟨de, hde⟩ := Option.isSome_iff_exists.mp hf
    obtain ⟨recs, hrecs, hF⟩ := ih (fun x hx => h x (List.mem_cons_of_mem _ hx))
    refine ⟨{ annDate := some da, stockName := some b, opening := some c,
              current := some d, dividend := some e, exDate := some de,
              stockCode := some (strReplaceAll g entPath ""),
              url := some (urlBase ++ u) } :: recs, ?_, List.Forall₂.cons ⟨rfl, rfl⟩ hF⟩
    simp only [List.map_cons, listMapM,
      divFinishRow_eq a b c d e f g h8 u da de hda hde, hrecs]

theorem ipoMapM_ok :
    ∀ rows : List (List String), (∀ r ∈ rows, ipoRowOk r = true) →
      ∃ recs, listMapM ipoFinishRow (rows.map (padRow 10)) = some recs ∧
        List.Forall₂ (fun r (rec : IpoRecord) =>
          r.getD 2 "" = "-" → rec.appClosed = none) rows recs := by
  intro rows
  induction rows with
  | nil => intro _; exact ⟨[], rfl, List.Forall₂.nil⟩
  | cons r t ih =>
    intro h
    obtain ⟨hlen, hao, hdl⟩ := ipoRowOk_spec r (h r (List.mem_cons_self _ _))
    obtain ⟨n, ao, ac, ip, pi, os, pp, ihse, ls, dl, rfl⟩ := len10_shape r hlen
    obtain ⟨dOpen, hOpenEq⟩ := Option.isSome_iff_exists.mp hao
    obtain ⟨dList, hListEq⟩ := Option.isSome_iff_exists.mp hdl
    obtain ⟨recs, hrecs, hF⟩ := ih (fun x hx => h x (List.mem_cons_of_mem _ hx))
    refine ⟨{ name := some n, appOpened := some dOpen,
              appClosed := cellLenient (dashToNone (some ac)),
              issuePrice := some ip, publicIssue := some pi, offerSale := some os,
              privatePlacement := some pp, issueHouse := some ihse,
              listSought := some ls, listingDate := some dList } :: recs, ?_,
        List.Forall₂.cons ?_ hF⟩
    · simp only [List.map_cons, listMapM,
        ipoFinishRow_eq n ao ac ip pi os pp ihse ls dl dOpen dList hOpenEq hListEq,
        hrecs]
    · intro hdash
      have hac : ac = "-" := hdash
      subst hac
      simp [dashToNone, cellLenient]

/-! ## Claim theorems -/

set_option maxRecDepth 8000 in
/-- Claim C1: on a fetched document containing exactly the script text
`var dtdata = [["02-Jan-2024","ABC Bhd","1.20","1.25","0.05","15-Jan-2024","1234","","/web/stock/entitlement/1234"]];`,
`get_dividend` returns a table of exactly one record with
`stock_code = "1234"` (the prefix-stripping applies to the stock-code
column, not the URL column),
`detail_url = "https://klse.i3investor.com//web/stock/entitlement/1234"`,
`announcement_date = 2024-01-02` and `ex_date = 2024-01-15`. -/
theorem C1_dividend_concrete_scenario :
    get_dividend ⟨200, c1Body⟩ = .table [(1,
      { annDate := some ⟨2024, 1, 2⟩, stockName := some "ABC Bhd",
        opening := some "1.20", current := some "1.25", dividend := some "0.05",
        exDate := some ⟨2024, 1, 15⟩, stockCode := some "1234",
        url := some "https://klse.i3investor.com//web/stock/entitlement/1234" })] := by
  decide

/-- Claim C9 (implicit): the stock-code rewrite is Python `str.replace`,
which deletes every left-to-right occurrence of
`/web/stock/entitlement/` anywhere in the raw field, not only a leading
one: the raw field `/web/stock/entitlement/12/web/stock/entitlement/34`
normalizes to `1234`. -/
theorem C9_replace_all_occurrences :
    strReplaceAll "/web/stock/entitlement/12/web/stock/entitlement/34" entPath "" =
      "1234" ∧
    divNormalize [["02-Jan-2024", "ABC Bhd", "1.20", "1.25", "0.05", "15-Jan-2024",
        "/web/stock/entitlement/12/web/stock/entitlement/34", "", "/x"]] =
      .table [(1,
        { annDate := some ⟨2024, 1, 2⟩, stockName := some "ABC Bhd",
          opening := some "1.20", current := some "1.25", dividend := some "0.05",
          exDate := some ⟨2024, 1, 15⟩, stockCode := some "1234",
          url := some "https://klse.i3investor.com//x" })] :=
  ⟨by decide, by decide⟩

/-- Claim C2, counterexample: a valid payload of one well-formed 9-element
row whose raw stock-code field is
`/web/stock/entitle/web/stock/entitlement/ment/`.  Deleting the single
occurrence of `/web/stock/entitlement/` re-creates that very substring, so
the returned record's `stock_code` still contains the prefix — the claim's
"contains no occurrence" clause is false. -/
theorem C2_counterexample :
    (∀ r ∈ [advRow], divRowOk r = true) ∧
    divNormalize [advRow] = .table [(1,
      { annDate := some ⟨2024, 1, 2⟩, stockName := some "ABC Bhd",
        opening := some "1.20", current := some "1.25", dividend := some "0.05",
        exDate := some ⟨2024, 1, 15⟩,
        stockCode := some "/web/stock/entitlement/",
        url := some "https://klse.i3investor.com//web/stock/entitlement/1234" })] ∧
    strContainsB "/web/stock/entitlement/" entPath = true :=
  ⟨by decide, by decide, by decide⟩

/-- Claim C2 as amended: for every payload of well-formed 9-element rows,
`divNormalize` (the stages of `get_dividend` past `json.loads`, i.e. with
fetch and parse fixed at the boundary) returns exactly N rows with 1-based
indices 1..N, every `detail_url` is the raw URL field behind the fixed
base (so it starts with `https://klse.i3investor.com/`), and every
`stock_code` is the raw field with all left-to-right non-overlapping
occurrences of `/web/stock/entitlement/` deleted — which does not always
leave it free of that substring. -/
theorem C2_amended_valid_payload (rows : List (List String))
    (h : ∀ r ∈ rows, divRowOk r = true) :
    ∃ tbl, divNormalize rows = .table tbl ∧ tbl.length = rows.length ∧
      tbl.map Prod.fst = (List.range rows.length).map (· + 1) ∧
      List.Forall₂ (fun r p =>
        (Prod.snd p).stockCode = some (strReplaceAll (r.getD 6 "") entPath "") ∧
        (Prod.snd p).url = some (urlBase ++ r.getD 8 "")) rows tbl := by
  rcases rows with _ | ⟨r0, rs⟩
  · exact ⟨[], rfl, rfl, rfl, List.Forall₂.nil⟩
  · obtain ⟨recs, hrecs, hF⟩ := divMapM_ok (r0 :: rs) h
    have hdf := mkDataFrame_uniform 9 (r0 :: rs) (by simp)
      (fun r hr => (divRowOk_spec r (h r hr)).1)
    have hlen := hF.length_eq
    refine ⟨indexed recs, ?_, ?_, ?_, forall2_indexed _ hF⟩
    · simp only [divNormalize, hdf, hrecs]
    · rw [indexed_length, hlen]
    · rw [indexed_fst, hlen]

/-- Witness for the amended claim C2, at a concrete one-row payload. -/
theorem C2_amended_witness :
    (∀ r ∈ [advRow], divRowOk r = true) ∧
    ∃ tbl, divNormalize [advRow] = .table tbl ∧ tbl.length = 1 ∧
      tbl.map Prod.fst = (List.range 1).map (· + 1) ∧
      List.Forall₂ (fun r p =>
        (Prod.snd p).stockCode = some (strReplaceAll (r.getD 6 "") entPath "") ∧
        (Prod.snd p).url = some (urlBase ++ r.getD 8 "")) [advRow] tbl :=
  ⟨by decide, C2_amended_valid_payload [advRow] (by decide)⟩

/-- Claim C3, counterexample: a payload mixing a well-formed 9-element row
with a 7-element row does not fail — pandas pads the short row with
missing values and the pipeline returns it, with a missing `url` field. -/
theorem C3_counterexample :
    divNormalize mixedPayload = .table
      [(1, { annDate := some ⟨2024, 1, 2⟩, stockName := some "A",
             opening := some "1.00", current := some "1.10",
             dividend := some "0.05", exDate := some ⟨2024, 1, 15⟩,
             stockCode := some "1111",
             url := some "https://klse.i3investor.com//u" }),
       (2, { annDate := some ⟨2024, 1, 3⟩, stockName := some "B",
             opening := some "2.00", current := some "2.10",
             dividend := some "0.06", exDate := some ⟨2024, 1, 16⟩,
             stockCode := some "2222", url := none })] := by
  decide

/-- Claim C3 as amended: a parsed row with more cells than the fixed schema
always aborts the pipeline with a hard error (the pandas column-count
`ValueError`), and so does a nonempty payload in which every row has fewer
cells than the schema; but a row with fewer cells than the schema occurring
alongside a row of full schema width is silently padded with missing
values and returned (see the final conjunct and the counterexample), not
rejected. -/
theorem C3_amended_schema_drift :
    (∀ rows : List (List String), (∃ r ∈ rows, 9 < r.length) →
        divNormalize rows = .raised colMsg) ∧
    (∀ rows : List (List String), rows ≠ [] → (∀ r ∈ rows, r.length < 9) →
        divNormalize rows = .raised colMsg) ∧
    (∀ rows : List (List String), (∃ r ∈ rows, 10 < r.length) →
        ipoNormalize rows = .raised colMsg) ∧
    (∀ rows : List (List String), rows ≠ [] → (∀ r ∈ rows, r.length < 10) →
        ipoNormalize rows = .raised colMsg) ∧
    ipoNormalize ipoMixedRows = .table ipoMixedExpected := by
  refine ⟨?_, ?_, ?_, ?_, by decide⟩
  · rintro rows ⟨r, hr, hlen⟩
    have hne : rows ≠ [] := by rintro rfl; cases hr
    have hle := length_le_maxWidth hr
    have hmw : maxWidth rows ≠ 9 := by omega
    simp only [divNormalize, mkDataFrame_none 9 rows hne hmw]
  · intro rows hne hw
    have hmw : maxWidth rows < 9 := maxWidth_lt 9 rows hne hw
    simp only [divNormalize, mkDataFrame_none 9 rows hne (by omega)]
  · rintro rows ⟨r, hr, hlen⟩
    have hne : rows ≠ [] := by rintro rfl; cases hr
    have hle := length_le_maxWidth hr
    have hmw : maxWidth rows ≠ 10 := by omega
    simp only [ipoNormalize, mkDataFrame_none 10 rows hne hmw]
  · intro rows hne hw
    have hmw : maxWidth rows < 10 := maxWidth_lt 10 rows hne hw
    simp only [ipoNormalize, mkDataFrame_none 10 rows hne (by omega)]

/-- Witness for the amended claim C3, at concrete drifted payloads: a
lone 10-element dividend row, a lone 7-element dividend row, a lone
11-cell IPO row and a lone 8-cell IPO row all abort. -/
theorem C3_amended_witness :
    divNormalize [["a", "b", "c", "d", "e", "f", "g", "h", "i", "j"]] =
        .raised colMsg ∧
    divNormalize [["a", "b", "c", "d", "e", "f", "g"]] = .raised colMsg ∧
    ipoNormalize [["a", "b", "c", "d", "e", "f", "g", "h", "i", "j", "k"]] =
        .raised colMsg ∧
    ipoNormalize [["a", "b", "c", "d", "e", "f", "g", "h"]] = .raised colMsg :=
  ⟨C3_amended_schema_drift.1 _ (by decide),
   C3_amended_schema_drift.2.1 _ (by decide) (by decide),
   C3_amended_schema_drift.2.2.1 _ (by decide),
   C3_amended_schema_drift.2.2.2.1 _ (by decide) (by decide)⟩

/-- Claim C4: for every IPO body-row payload whose strict columns are
well-formed, the pipeline does not fail: it returns the full batch, and
every row whose `Application Closed` cell is the literal `-` yields a
record with `application_closed` absent (`Series.replace('-', np.nan)`
followed by the coercing `pd.to_datetime`). -/
theorem C4_application_closed_absent (rows : List (List String))
    (h : ∀ r ∈ rows, ipoRowOk r = true) :
    ∃ tbl, ipoNormalize rows = .table tbl ∧ tbl.length = rows.length ∧
      List.Forall₂ (fun r p =>
        r.getD 2 "" = "-" → (Prod.snd p).appClosed = none) rows tbl := by
  rcases rows with _ | ⟨r0, rs⟩
  · exact ⟨[], rfl, rfl, List.Forall₂.nil⟩
  · obtain ⟨recs, hrecs, hF⟩ := ipoMapM_ok (r0 :: rs) h
    have hdf := mkDataFrame_uniform 10 (r0 :: rs) (by simp)
      (fun r hr => (ipoRowOk_spec r (h r hr)).1)
    have hlen := hF.length_eq
    refine ⟨indexed recs, ?_, ?_, forall2_indexed _ hF⟩
    · simp only [ipoNormalize, hdf, hrecs]
    · rw [indexed_length, hlen]

/-- Witness for claim C4, at a concrete payload whose only row has
`Application Closed = "-"`. -/
theorem C4_witness :
    (∀ r ∈ [["Co1", "02 Jan 2024", "-", "0.50", "10m", "5m", "2m", "HouseA",
             "Main", "15 Jan 2024"]], ipoRowOk r = true) ∧
    ∃ tbl, ipoNormalize [["Co1", "02 Jan 2024", "-", "0.50", "10m", "5m", "2m",
          "HouseA", "Main", "15 Jan 2024"]] = .table tbl ∧ tbl.length = 1 ∧
      List.Forall₂ (fun r p =>
        r.getD 2 "" = "-" → (Prod.snd p).appClosed = none)
        [["Co1", "02 Jan 2024", "-", "0.50", "10m", "5m", "2m", "HouseA",
          "Main", "15 Jan 2024"]] tbl :=
  ⟨by decide, C4_application_closed_absent _ (by decide)⟩

/-- Claim C5: every non-200 response makes either pipeline fail on its
fetch branch, carrying the status code (`fetchFailure status` models the
code printing the status and returning `None`); a single fetch is issued
(the pipelines are functions of one response) and no table constructor is
ever produced on this branch. -/
theorem C5_non200_fetch_failure (s : Nat) (hs : s ≠ 200) (body : String)
    (doc : IpoDoc) :
    get_dividend ⟨s, body⟩ = .fetchFailure s ∧
    get_ipo ⟨s, doc⟩ = .fetchFailure s ∧
    (∀ tbl, get_dividend ⟨s, body⟩ ≠ .table tbl) ∧
    (∀ tbl, get_ipo ⟨s, doc⟩ ≠ .table tbl) := by
  have h1 : get_dividend ⟨s, body⟩ = .fetchFailure s := by
    simp [get_dividend, hs]
  have h2 : get_ipo ⟨s, doc⟩ = .fetchFailure s := by
    simp [get_ipo, hs]
  refine ⟨h1, h2, ?_, ?_⟩
  · intro tbl hc; rw [h1] at hc; cases hc
  · intro tbl hc; rw [h2] at hc; cases hc

/-- Witness for claim C5: the spec's concrete scenario, an IPO response
with status 404 (and a dividend response alongside). -/
theorem C5_witness :
    (404 : Nat) ≠ 200 ∧
    get_ipo ⟨404, ⟨[]⟩⟩ = .fetchFailure 404 ∧
    get_dividend ⟨404, "irrelevant"⟩ = .fetchFailure 404 :=
  ⟨by decide, (C5_non200_fetch_failure 404 (by decide) "irrelevant" ⟨[]⟩).2.1,
   (C5_non200_fetch_failure 404 (by decide) "irrelevant" ⟨[]⟩).1⟩

/-- Claim C6: when the locator pattern
`var dtdata = (\[.*?\])\];` is absent from a 200 dividend response body,
`get_dividend` takes its no-match branch (prints "No match found." and
returns `None` — the spec's `ExtractError("payload not found")`) and
returns no table. -/
theorem C6_payload_missing (body : String) (h : divLocate body = none) :
    get_dividend ⟨200, body⟩ = .noMatch ∧
    ∀ tbl, get_dividend ⟨200, body⟩ ≠ .table tbl := by
  have h1 : get_dividend ⟨200, body⟩ = .noMatch := by
    simp [get_dividend, h]
  exact ⟨h1, fun tbl hc => by rw [h1] at hc; cases hc⟩

/-- Witness for claim C6, at a concrete body without the pattern. -/
theorem C6_witness :
    divLocate "<html><body>no payload here</body></html>" = none ∧
    get_dividend ⟨200, "<html><body>no payload here</body></html>"⟩ = .noMatch :=
  ⟨by decide, (C6_payload_missing _ (by decide)).1⟩

/-- Claim C7: a 200 IPO response whose document has zero `<table>`
elements makes `get_ipo` fail — `soup.find('table')` is `None` and the
code dies on `table.find_all('th')` with an uncaught `AttributeError`,
the failure the spec labels `ExtractError("no table found")` — and in
particular no (empty) table is returned. -/
theorem C7_no_table_extract_failure (doc : IpoDoc) (h : doc.tables = []) :
    get_ipo ⟨200, doc⟩ = .raised attrMsg ∧
    ∀ tbl, get_ipo ⟨200, doc⟩ ≠ .table tbl := by
  have h1 : get_ipo ⟨200, doc⟩ = .raised attrMsg := by
    simp [get_ipo, h]
  exact ⟨h1, fun tbl hc => by rw [h1] at hc; cases hc⟩

/-- Witness for claim C7, at the concrete table-free document. -/
theorem C7_witness :
    (⟨[]⟩ : IpoDoc).tables = [] ∧ get_ipo ⟨200, ⟨[]⟩⟩ = .raised attrMsg :=
  ⟨rfl, (C7_no_table_extract_failure ⟨[]⟩ rfl).1⟩

/-- Claim C8: the date texts are parsed under the fixed strict formats —
`%d-%b-%Y` for the dividend `Announcement Date`/`Ex Date` columns and
`%d %b %Y` for the IPO `Application Opened`/`Date of Listing` columns —
and any row whose strict field fails its format aborts the whole batch
with the `to_datetime` error (never a per-row skip). -/
theorem C8_strict_date_formats :
    (∀ rows : List (List String), (∀ r ∈ rows, r.length = 9) →
      (∃ r ∈ rows, parseStrictDate '-' (r.getD 0 "") = none ∨
                   parseStrictDate '-' (r.getD 5 "") = none) →
      divNormalize rows = .raised dtMsg) ∧
    (∀ rows : List (List String), (∀ r ∈ rows, r.length = 10) →
      (∃ r ∈ rows, parseStrictDate ' ' (r.getD 1 "") = none ∨
                   parseStrictDate ' ' (r.getD 9 "") = none) →
      ipoNormalize rows = .raised dtMsg) := by
  constructor
  · rintro rows hw ⟨r, hr, hbad⟩
    have hne : rows ≠ [] := by rintro rfl; cases hr
    have hdf := mkDataFrame_uniform 9 rows hne hw
    have hnone : divFinishRow (padRow 9 r) = none := by
      obtain ⟨a, b, c, d, e, f, g, h8, u, rfl⟩ := len9_shape r (hw r hr)
      exact divFinishRow_bad a b c d e f g h8 u hbad
    have hmm : listMapM divFinishRow (rows.map (padRow 9)) = none :=
      listMapM_none_of_mem _ (List.mem_map_of_mem _ hr) hnone
    simp only [divNormalize, hdf, hmm]
  · rintro rows hw ⟨r, hr, hbad⟩
    have hne : rows ≠ [] := by rintro rfl; cases hr
    have hdf := mkDataFrame_uniform 10 rows hne hw
    have hnone : ipoFinishRow (padRow 10 r) = none := by
      obtain ⟨n, ao, ac, ip, pi, os, pp, ihse, ls, dl, rfl⟩ :=
        len10_shape r (hw r hr)
      exact ipoFinishRow_bad n ao ac ip pi os pp ihse ls dl hbad
    have hmm : listMapM ipoFinishRow (rows.map (padRow 10)) = none :=
      listMapM_none_of_mem _ (List.mem_map_of_mem _ hr) hnone
    simp only [ipoNormalize, hdf, hmm]

/-- Witness for claim C8: an ISO-formatted announcement date aborts the
dividend batch, and a dashed `Application Opened` aborts the IPO batch. -/
theorem C8_witness :
    divNormalize [["2024-01-02", "A", "1.00", "1.10", "0.05", "15-Jan-2024",
        "1111", "", "/u"]] = .raised dtMsg ∧
    ipoNormalize [["Co1", "02-01-2024", "-", "0.50", "10m", "5m", "2m",
        "HouseA", "Main", "15 Jan 2024"]] = .raised dtMsg :=
  ⟨C8_strict_date_formats.1 _ (by decide) (by decide),
   C8_strict_date_formats.2 _ (by decide) (by decide)⟩

/-- Claim C10 (implicit): `get_ipo` is independent of the `<th>` header
texts — the code collects them into a list it never reads afterwards, and
column names come from the fixed 10-name schema — so two responses whose
documents agree except in header texts produce equal outcomes. -/
theorem C10_header_text_independence (s : Nat) (t1 t2 : List TableEl)
    (h : sameShape t1 t2 = true) :
    get_ipo ⟨s, ⟨t1⟩⟩ = get_ipo ⟨s, ⟨t2⟩⟩ := by
  rcases t1 with _ | ⟨a1, r1⟩ <;> rcases t2 with _ | ⟨a2, r2⟩
  · rfl
  · simp [sameShape] at h
  · simp [sameShape] at h
  · have hb : a1.tbody = a2.tbody := by
      simp only [sameShape, Bool.and_eq_true, beq_iff_eq] at h
      exact h.1
    simp only [get_ipo, List.head?, hb]

/-- Witness for claim C10: two concrete one-table documents differing only
in their header texts yield equal outcomes. -/
theorem C10_witness :
    sameShape thDoc1.tables thDoc2.tables = true ∧
    get_ipo ⟨200, thDoc1⟩ = get_ipo ⟨200, thDoc2⟩ :=
  ⟨by decide, C10_header_text_independence 200 thDoc1.tables thDoc2.tables (by decide)⟩
